import Mathlib

/-!
Verification development for the CycloneNew trading engine core.

The Python source is shallowly embedded: finite float arithmetic is
modelled exactly over `ℚ`, and the IEEE special values that the code
explicitly tests for (`math.isnan` / `math.isinf`) are modelled by the
`FP` type, a rational tagged with the possibility of being NaN or ±Inf.
Stateful methods become pure functions from the old state to the new
state; calls into collaborators (Redis persistence, the position store
notification made by the order executor) are recorded as explicit
output values.

Field-name note: the source's `Position` dataclass keeps the legacy
field names `quantity` / `average_entry_price` alongside the newer
aliases `size` / `entry_price`; the method `Position.update_position`
(position_manager.py lines 37-76) reads and writes only the legacy
pair.  The specification's `size` and `entry_price` therefore denote
the code's `quantity` and `average_entry_price`, and the theorems below
state properties of those fields.
-/

/-- A Python float as the trading code observes it: either an exact
finite value (modelled by a rational) or one of the special values that
`math.isnan` / `math.isinf` detect. -/
inductive FP where
  | finite (q : ℚ)
  | nan
  | inf
  | ninf
deriving DecidableEq

/-- `math.isnan`. -/
def FP.isnan : FP → Bool
  | .nan => true
  | _ => false

/-- `math.isinf` (true for both infinities). -/
def FP.isinf : FP → Bool
  | .inf => true
  | .ninf => true
  | _ => false

/-- The rational payload of a finite float (0 for the special values;
only read under a finiteness guard, mirroring the code's flow). -/
def FP.val : FP → ℚ
  | .finite q => q
  | _ => 0

/-- Whether the value is an ordinary finite number. -/
def FP.isfinite : FP → Bool
  | .finite _ => true
  | _ => false

/-- The literal `1e-9` used as the closing / tiny-risk epsilon. -/
def eps9 : ℚ := 1 / 1000000000

/-- Python's `abs` on a finite float. -/
def pyabs (q : ℚ) : ℚ := if q < 0 then -q else q

theorem pyabs_eq_abs (q : ℚ) : pyabs q = |q| := by
  unfold pyabs
  rcases lt_or_le q 0 with h | h
  · simp [h, abs_of_neg h]
  · simp [not_lt.mpr h, abs_of_nonneg h]

/-- The `Position` dataclass of `hydrobot/trading/position_manager.py`
(lines 23-35), with every float field modelled as a rational. -/
structure Position where
  symbol : String
  size : ℚ := 0
  entry_price : ℚ := 0
  current_price : ℚ := 0
  quantity : ℚ := 0
  average_entry_price : ℚ := 0
  realized_pnl : ℚ := 0
  unrealized_pnl : ℚ := 0
  total_pnl : ℚ := 0
  last_update_time : ℚ := 0
deriving DecidableEq

/-- `Position.update_position` (position_manager.py lines 37-76).
A NaN/Inf fill quantity or price is rejected with no state change
(the early `return` at line 42).  Otherwise: the exact-close branch
(line 47), the same-direction branch (line 52), and the
reduce-or-flip branch (line 61), in the source's order.  In the
reduce-or-flip branch the assignment `self.quantity = new_quantity`
at line 73 runs after all three sub-branches, so it overwrites the
`quantity = 0.0` written by the dead `abs(new_quantity) < 1e-9`
sub-branch.  `last_update_time` is set at line 76 on every
non-rejected path. -/
def Position.update_position (p : Position) (fill_quantity fill_price : FP)
    (timestamp : ℚ) : Position :=
  match fill_quantity, fill_price with
  | .finite fq, .finite fp =>
    let p' :=
      if pyabs (p.quantity + fq) < eps9 then
        { p with quantity := 0, average_entry_price := 0 }
      else if (0 ≤ p.quantity ∧ 0 < fq) ∨ (p.quantity ≤ 0 ∧ fq < 0) then
        let old_value := p.quantity * p.average_entry_price
        let new_value := fq * fp
        let new_quantity := p.quantity + fq
        { p with
          average_entry_price :=
            if new_quantity ≠ 0 then (old_value + new_value) / new_quantity else 0,
          quantity := new_quantity }
      else
        let new_quantity := p.quantity + fq
        let avg :=
          if (0 < p.quantity ∧ new_quantity < 0) ∨ (p.quantity < 0 ∧ 0 < new_quantity) then
            fp
          else if pyabs new_quantity < eps9 then
            0
          else
            p.average_entry_price
        { p with average_entry_price := avg, quantity := new_quantity }
    { p' with last_update_time := timestamp }
  | _, _ => p

/-- A fill as a (quantity, price, timestamp) triple of finite floats. -/
abbrev Fill := ℚ × ℚ × ℚ

/-- Apply a sequence of finite fills to a position, left to right. -/
def applyFills (p : Position) (fills : List Fill) : Position :=
  fills.foldl
    (fun q f => q.update_position (.finite f.1) (.finite f.2.1) f.2.2) p

/-- Running check that each fill keeps the accumulated position size at
least `1e-9` in magnitude (so no step hits the exact-close branch of
`update_position`). -/
def stepOK (s : ℚ) : List Fill → Bool
  | [] => true
  | f :: rest => eps9 ≤ pyabs (s + f.1) && stepOK (s + f.1) rest

/-- Total signed quantity of a fill list. -/
def totalQty (fills : List Fill) : ℚ := (fills.map Prod.fst).sum

/-- Price-weighted signed quantity of a fill list. -/
def weightedQty (fills : List Fill) : ℚ :=
  (fills.map fun f => f.1 * f.2.1).sum

/-- The risk-related configuration consumed by `RiskController`
(`config.risk` in risk_controller.py). -/
structure RiskSettings where
  max_drawdown_pct : ℚ
  max_risk_per_trade_pct : ℚ
deriving DecidableEq

/-- The slice of `AppSettings` that `RiskController.validate_trade`
reads: the risk settings and `config.trading.max_open_positions`. -/
structure AppConfig where
  risk : RiskSettings
  max_open_positions : ℕ
deriving DecidableEq

/-- The mutable state of `RiskController` (risk_controller.py lines
21-22): the portfolio high-water mark and the halt flag. -/
structure RiskController where
  portfolio_peak_value : ℚ := 0
  is_trading_halted : Bool := false
deriving DecidableEq

/-- `RiskController.update_portfolio_value` (risk_controller.py lines
28-48).  NaN/Inf values are ignored.  The peak rises when the new value
strictly exceeds it.  When the peak is positive, the drawdown
`(peak - value) / peak` is compared against `max_drawdown_pct`: at or
above it the halt flag is set; otherwise, a set flag is cleared only
when the drawdown has fallen strictly below half the limit. -/
def RiskController.update_portfolio_value (rc : RiskController)
    (cfg : RiskSettings) (current_value : FP) : RiskController :=
  match current_value with
  | .finite v =>
    let rc1 :=
      if rc.portfolio_peak_value < v then { rc with portfolio_peak_value := v } else rc
    if 0 < rc1.portfolio_peak_value then
      let drawdown_pct := (rc1.portfolio_peak_value - v) / rc1.portfolio_peak_value
      if cfg.max_drawdown_pct ≤ drawdown_pct then
        { rc1 with is_trading_halted := true }
      else if rc1.is_trading_halted ∧ drawdown_pct < cfg.max_drawdown_pct / 2 then
        { rc1 with is_trading_halted := false }
      else
        rc1
    else
      rc1
  | _ => rc

/-- Feed a sequence of finite portfolio-value observations through
`update_portfolio_value`. -/
def RiskController.observeAll (rc : RiskController) (cfg : RiskSettings)
    (vs : List ℚ) : RiskController :=
  vs.foldl (fun s v => s.update_portfolio_value cfg (.finite v)) rc

/-- Modelled from the spec: the `Signal` value type (spec §3).  Its
class definition lives in `hydrobot/strategies/base_strategy.py`, which
is not among the sources; the fields and their optionality are exactly
those the spec lists and the in-source consumers (`RiskController`,
`OrderExecutor`) read. -/
structure Signal where
  action : String := "HOLD"
  symbol : Option String := none
  price : Option FP := none
  quantity : Option FP := none
  order_type : String := "MARKET"
  stop_loss_price : Option FP := none
deriving DecidableEq

/-- Association-list read of a Python dict. -/
def getAssoc {α : Type} (l : List (String × α)) (k : String) : Option α :=
  (l.find? fun kv => kv.1 = k).map Prod.snd

/-- Association-list write of a Python dict (`d[k] = v`). -/
def setAssoc {α : Type} (l : List (String × α)) (k : String) (v : α) :
    List (String × α) :=
  if l.any fun kv => kv.1 = k then
    l.map fun kv => if kv.1 = k then (k, v) else kv
  else
    l ++ [(k, v)]

/-- `PositionManager.get_position_size` (position_manager.py lines
278-281) over the manager's position map. -/
def get_position_size (positions : List (String × Position)) (symbol : String) : ℚ :=
  match getAssoc positions symbol with
  | some p => p.quantity
  | none => 0

/-- The max-open-positions rejection condition of `validate_trade`
(risk_controller.py lines 66-77): the signal would open or increase a
position, its symbol is not among the open positions (those of
magnitude above 1e-9), and the number of open positions has reached
`max_open_positions`. -/
def max_open_reject (cfg : AppConfig) (positions : List (String × Position))
    (sym action : String) : Bool :=
  let open_positions := positions.filter fun sp => eps9 < pyabs sp.2.quantity
  let current_position_size := get_position_size positions sym
  let is_opening_or_increasing :=
    (current_position_size = 0 ∧ (action = "BUY" ∨ action = "SELL")) ∨
    (0 < current_position_size ∧ action = "BUY") ∨
    (current_position_size < 0 ∧ action = "SELL")
  decide (is_opening_or_increasing ∧ (getAssoc open_positions sym) = none ∧
    cfg.max_open_positions ≤ open_positions.length)

/-- `RiskController.validate_trade` (risk_controller.py lines 50-111)
over an explicit snapshot of the position manager's map.  Returns the
updated controller state together with `None` (rejection) or the
possibly resized signal.  The steps, in the source's order: HOLD /
missing-symbol passthrough; NaN/Inf portfolio value rejection; drawdown
update and halt check; max-open-positions check; and the per-trade risk
check, which for positive portfolio value either resizes the quantity
to `portfolio_value * max_risk_per_trade_pct / risk_per_unit` or, when
`risk_per_unit ≤ 1e-9`, rejects. -/
def RiskController.validate_trade (rc : RiskController) (cfg : AppConfig)
    (positions : List (String × Position)) (signal : Signal) (pv : FP) :
    RiskController × Option Signal :=
  match signal.symbol with
  | none => (rc, some signal)
  | some sym =>
    if signal.action = "HOLD" then (rc, some signal)
    else
      match pv with
      | .finite v =>
        let rc' := rc.update_portfolio_value cfg.risk (.finite v)
        if rc'.is_trading_halted then (rc', none)
        else
          if max_open_reject cfg positions sym signal.action then
            (rc', none)
          else
            match signal.stop_loss_price, signal.price, signal.quantity with
            | some slp, some pr, some qty =>
              if signal.action = "BUY" ∨ signal.action = "SELL" then
                if slp.isnan ∨ pr.isnan ∨ qty.isnan ∨ slp.isinf ∨ pr.isinf ∨ qty.isinf then
                  (rc', none)
                else if v ≤ 0 then
                  (rc', some signal)
                else
                  let risk_per_unit := pyabs (pr.val - slp.val)
                  let total_risk_amount := risk_per_unit * pyabs qty.val
                  let risk_pct_of_portfolio := total_risk_amount / v
                  if cfg.risk.max_risk_per_trade_pct < risk_pct_of_portfolio then
                    if eps9 < risk_per_unit then
                      let new_quantity := v * cfg.risk.max_risk_per_trade_pct / risk_per_unit
                      (rc', some { signal with quantity := some (.finite new_quantity) })
                    else
                      (rc', none)
                  else
                    (rc', some signal)
              else
                (rc', some signal)
            | _, _, _ => (rc', some signal)
      | _ => (rc, none)

/-- The shapes that `market['precision']['amount']` (or `['price']`)
can take in the ccxt market metadata: an `int` number of decimal
places, a `float` step size, or something else. -/
inductive PrecisionSpec where
  | dp (n : ℤ)
  | step (s : ℚ)
  | other
deriving DecidableEq

/-- Truncation toward zero, the semantics of both `Decimal.quantize`
with `ROUND_DOWN` and `Decimal.__floordiv__`. -/
def truncQ (x : ℚ) : ℤ := if 0 ≤ x then ⌊x⌋ else -⌊-x⌋

/-- `format_quantity` (trading_utils.py lines 49-82), with the amount
precision already looked up from the market cache.  NaN/Inf input
returns `None` first; missing precision returns the input; an `int`
precision quantizes down to that many decimal places (a negative
decimal-place count makes `Decimal('1e-' + str(dp))` raise, which the
`except` clause turns into `None`); a `float` precision floors to a
multiple of the step (returning the input when the step is zero);
other precision shapes return the input. -/
def format_quantity (precision_amount : Option PrecisionSpec) (quantity : FP) :
    Option ℚ :=
  match quantity with
  | .finite q =>
    match precision_amount with
    | none => some q
    | some (.dp n) =>
      if n < 0 then none
      else some ((truncQ (q * 10 ^ n.toNat) : ℚ) / 10 ^ n.toNat)
    | some (.step s) =>
      if s = 0 then some q
      else some ((truncQ (q / s) : ℚ) * s)
    | some .other => some q
  | _ => none

/-- One order-book level `(price, amount)` of the market-data payload. -/
abbrev BookLevel := FP × FP

/-- The market-data dict consumed by
`TradingManager._handle_market_data_update` (trader.py lines 41-72):
`{timestamp, bids, asks, last_trade?}`. -/
structure MarketData where
  timestamp : ℚ
  bids : List BookLevel
  asks : List BookLevel
  last_trade : Option FP := none
deriving DecidableEq

/-- The slice of `TradingManager` state that the market-data handler
touches: the per-symbol task map (`True` = task is done), the latest
market data, and the latest prices (a price can be stored as `inf` by
the last-trade fallback, hence `FP`). -/
structure TradingManager where
  tasks : List (String × Bool) := []
  latest_market_data : List (String × MarketData) := []
  latest_prices : List (String × FP) := []
deriving DecidableEq

/-- The exception a handler run can raise. -/
inductive PyError where
  | nameError
deriving DecidableEq

/-- The latest-price update inside `_handle_market_data_update`
(trader.py lines 46-64).  With non-empty books and non-NaN top levels,
the mid-price is stored when it is positive and finite (an infinite
top-of-book makes the mid-price infinite or NaN, which fails the
`mid_price > 0 and not isinf(mid_price)` validation); otherwise the
fallback stores a truthy, non-NaN, positive `last_trade`. -/
def updateLatestPrice (tm : TradingManager) (symbol : String)
    (data : MarketData) : TradingManager :=
  match data.bids, data.asks with
  | (b0, _) :: _, (a0, _) :: _ =>
    if ¬b0.isnan ∧ ¬a0.isnan then
      match b0, a0 with
      | .finite b, .finite a =>
        if 0 < (b + a) / 2 then
          { tm with latest_prices :=
              setAssoc tm.latest_prices symbol (.finite ((b + a) / 2)) }
        else
          tm
      | _, _ => tm
    else
      match data.last_trade with
      | some lt =>
        match lt with
        | .finite l => if l ≠ 0 ∧ 0 < l then
            { tm with latest_prices := setAssoc tm.latest_prices symbol (.finite l) }
          else tm
        | .inf => { tm with latest_prices := setAssoc tm.latest_prices symbol .inf }
        | _ => tm
      | none => tm
  | _, _ =>
    match data.last_trade with
    | some lt =>
      match lt with
      | .finite l => if l ≠ 0 ∧ 0 < l then
          { tm with latest_prices := setAssoc tm.latest_prices symbol (.finite l) }
        else tm
      | .inf => { tm with latest_prices := setAssoc tm.latest_prices symbol .inf }
      | _ => tm
    | none => tm

/-- `TradingManager._handle_market_data_update` (trader.py lines
41-72).  The update is always recorded in `latest_market_data` and the
latest price is refreshed; then, if the symbol has no task or its task
is done, line 70 evaluates `market_data.copy()` — but `market_data` is
not a name in scope (the parameter is called `data`), so the run
raises `NameError` before `asyncio.create_task` is reached and the
task map is left untouched.  If the symbol's task is still running,
the update is skipped with a debug log and no error. -/
def handle_market_data_update (tm : TradingManager) (symbol : String)
    (data : MarketData) : TradingManager × Option PyError :=
  let tm1 := { tm with latest_market_data := setAssoc tm.latest_market_data symbol data }
  let tm2 := updateLatestPrice tm1 symbol data
  match getAssoc tm2.tasks symbol with
  | none => (tm2, some .nameError)
  | some done => if done then (tm2, some .nameError) else (tm2, none)

/-- Python's `str.lower` restricted to ASCII, character by character
(the order-type strings it is applied to are ASCII). -/
def pylowerChar (c : Char) : Char :=
  if 'A' ≤ c ∧ c ≤ 'Z' then Char.ofNat (c.toNat + 32) else c

/-- Python's `str.lower` on an ASCII string. -/
def pylower (s : String) : String := ⟨s.data.map pylowerChar⟩

/-- Python's `x <= 0` on a float: false for NaN and `+inf`, true for
`-inf` and nonpositive finite values. -/
def fpLeZero : FP → Bool
  | .finite q => decide (q ≤ 0)
  | .ninf => true
  | _ => false

/-- The `OrderExecutionError` cases the executor can raise on the
modelled path. -/
inductive ExecError where
  | notReady
  | invalidParams
  | limitNeedsPrice
deriving DecidableEq

/-- The simulated ccxt order dict built at order_executor.py lines
135-141, restricted to the fields the code reads afterwards. -/
structure OrderResult where
  symbol : String
  type : String
  side : String
  price : Option ℚ
  amount : ℚ
  status : String
  filled : ℚ
  average : Option ℚ
  timestamp : ℤ
deriving DecidableEq

/-- One recorded call to
`PositionManager.update_position_on_fill(symbol, quantity, price,
timestamp)`. -/
structure FillCall where
  symbol : String
  quantity : ℚ
  price : Option ℚ
  timestamp : ℚ
deriving DecidableEq

/-- The fill simulation of `execute_signal` (order_executor.py lines
108-133): produces `(status, filled, average)`.  A limit order without
a price raises; a limit order fills at the current price when the
limit is marketable against it; a market order fills at the current
price when one is known; everything else stays `open` with zero
filled.  `current_price` is `None` here when the dict lookup missed or
returned a falsy (zero) price, matching `if current_price:`. -/
def simulate_order (order_type side : String) (price : Option ℚ) (amount : ℚ)
    (current_price : Option ℚ) : Except ExecError (String × ℚ × Option ℚ) :=
  if order_type = "limit" then
    match price with
    | none => .error .limitNeedsPrice
    | some pr =>
      match current_price with
      | some c =>
        if side = "buy" ∧ c ≤ pr then .ok ("closed", amount, some c)
        else if side = "sell" ∧ pr ≤ c then .ok ("closed", amount, some c)
        else .ok ("open", 0, some pr)
      | none => .ok ("open", 0, some pr)
  else if order_type = "market" then
    match current_price with
    | some c => .ok ("closed", amount, some c)
    | none => .ok ("open", 0, price)
  else
    .ok ("open", 0, price)

/-- The fill-processing step of `execute_signal` (order_executor.py
lines 157-163): when the order result reports `status == 'closed'` and
`filled > 0`, exactly one position update is issued, with the quantity
signed by side, the result's `average` price (the `'average'` key is
always present in the simulated dict, so `order_result.get('average',
...)` returns it), and the result's timestamp divided by 1000;
otherwise no update is issued. -/
def fillCalls (res : OrderResult) : List FillCall :=
  if res.status = "closed" ∧ 0 < res.filled then
    [{ symbol := res.symbol,
       quantity := if res.side = "buy" then res.filled else -res.filled,
       price := res.average,
       timestamp := (res.timestamp : ℚ) / 1000 }]
  else
    []

/-- `OrderExecutor.execute_signal` (order_executor.py lines 76-165),
parameterised by the initialization flag, the current-prices map, and
the wall-clock time `now` (seconds).  The returned pair holds the
order result handed back to the caller and the list of position-store
updates performed.  The guard order follows the source: exchange
readiness, the HOLD / missing-quantity / nonpositive-quantity /
missing-symbol no-op, the NaN/Inf parameter rejection, then the
simulated placement and fill processing. -/
def execute_signal (is_initialized : Bool) (signal : Signal)
    (current_prices : List (String × ℚ)) (now : ℚ) :
    Except ExecError (Option OrderResult × List FillCall) :=
  if ¬is_initialized then .error .notReady
  else if signal.action = "HOLD" then .ok (none, [])
  else
    match signal.quantity with
    | none => .ok (none, [])
    | some qfp =>
      if fpLeZero qfp then .ok (none, [])
      else
        match signal.symbol with
        | none => .ok (none, [])
        | some symbol =>
          let side := if signal.action = "BUY" then "buy" else "sell"
          let order_type := pylower signal.order_type
          let price : Option FP := if order_type = "limit" then signal.price else none
          if qfp.isnan ∨ qfp.isinf ∨
              (match price with | some p => p.isnan || p.isinf | none => false) = true then
            .error .invalidParams
          else
            let amount := qfp.val
            let priceQ : Option ℚ := price.map FP.val
            let timestamp : ℤ := truncQ (now * 1000)
            let current_price : Option ℚ :=
              match getAssoc current_prices symbol with
              | some c => if c = 0 then none else some c
              | none => none
            match simulate_order order_type side priceQ amount current_price with
            | .error e => .error e
            | .ok (status, filled, average) =>
              let res : OrderResult :=
                { symbol := symbol, type := order_type, side := side, price := priceQ,
                  amount := amount, status := status, filled := filled,
                  average := average, timestamp := timestamp }
              .ok (some res, fillCalls res)

theorem eps9_pos : (0 : ℚ) < eps9 := by norm_num [eps9]

theorem pyabs_nonneg (q : ℚ) : 0 ≤ pyabs q := by
  rw [pyabs_eq_abs]; exact abs_nonneg q

theorem pyabs_ne_zero (q : ℚ) (h : eps9 ≤ pyabs q) : q ≠ 0 := by
  intro h0
  rw [h0, pyabs_eq_abs] at h
  simp at h
  exact absurd h (not_le.mpr eps9_pos)

/-- C1. The claim asserts that an exactly-closing fill both zeroes the
position and realizes the closed PnL.  The zeroing half holds; the PnL
half does not (see the counterexample): `Position.update_position`
never writes `realized_pnl`.  Amended claim: for every position and
every finite fill whose signed quantity brings the position's size to
zero within an epsilon of 1e-9, applying the fill sets `size == 0` and
`entry_price == 0` and stamps the fill time, while `realized_pnl` is
left unchanged (no PnL is realized). -/
theorem update_position_exact_close (p : Position) (fq fp ts : ℚ)
    (h : pyabs (p.quantity + fq) < eps9) :
    (p.update_position (.finite fq) (.finite fp) ts).quantity = 0 ∧
    (p.update_position (.finite fq) (.finite fp) ts).average_entry_price = 0 ∧
    (p.update_position (.finite fq) (.finite fp) ts).realized_pnl = p.realized_pnl ∧
    (p.update_position (.finite fq) (.finite fp) ts).last_update_time = ts := by
  unfold Position.update_position
  simp [h]

/-- Witness for `update_position_exact_close` at a long position of
size 1 at entry 100 closed by a fill of -1 at 110. -/
theorem update_position_exact_close_witness :
    pyabs ((Position.mk "BTC/USDT" 0 0 0 1 100 0 0 0 0).quantity + (-1)) < eps9 ∧
    (Position.update_position (Position.mk "BTC/USDT" 0 0 0 1 100 0 0 0 0)
      (.finite (-1)) (.finite 110) 5).quantity = 0 :=
  ⟨by norm_num [pyabs, eps9],
   (update_position_exact_close (Position.mk "BTC/USDT" 0 0 0 1 100 0 0 0 0)
     (-1) 110 5 (by norm_num [pyabs, eps9])).1⟩

/-- Counterexample to C1 as stated: closing a long of size 1 with
entry 100 by a fill of -1 at price 110 leaves `realized_pnl` at 0,
not increased by `(fill_price - entry_price) * closed_quantity = 10`. -/
theorem update_position_exact_close_no_pnl :
    (Position.update_position (Position.mk "BTC/USDT" 0 0 0 1 100 0 0 0 0)
      (.finite (-1)) (.finite 110) 5).realized_pnl = 0 ∧
    (0 : ℚ) ≠ 0 + (110 - 100) * 1 := by
  constructor
  · norm_num [Position.update_position, pyabs, eps9]
  · norm_num

/-- C5. Applying a fill in which the price or the quantity is NaN or
infinite leaves every field of the position exactly as before: the
update returns with no state change. -/
theorem update_position_invalid_fill (p : Position) (fq fp : FP) (ts : ℚ)
    (h : fq.isnan ∨ fq.isinf ∨ fp.isnan ∨ fp.isinf) :
    p.update_position fq fp ts = p := by
  cases fq <;> cases fp <;>
    simp_all [Position.update_position, FP.isnan, FP.isinf]

/-- Witness for `update_position_invalid_fill`: a NaN quantity leaves
a concrete position untouched. -/
theorem update_position_invalid_fill_witness :
    ((FP.nan).isnan = true ∨ (FP.nan).isinf = true ∨
      (FP.finite 100).isnan = true ∨ (FP.finite 100).isinf = true) ∧
    Position.update_position (Position.mk "BTC/USDT" 0 0 0 1 100 2 0 0 7)
      .nan (.finite 100) 9 = Position.mk "BTC/USDT" 0 0 0 1 100 2 0 0 7 :=
  ⟨Or.inl rfl,
   update_position_invalid_fill (Position.mk "BTC/USDT" 0 0 0 1 100 2 0 0 7)
     .nan (.finite 100) 9 (Or.inl rfl)⟩

/-- C4. The claim asserts that a sign-flipping fill realizes PnL on
the old size and re-opens at the fill price.  The re-opening half
holds whenever the signed remainder's magnitude is at least 1e-9; the
PnL half does not, and a remainder smaller than 1e-9 in magnitude is
swallowed by the exact-close branch instead (see the counterexample).
Amended claim: for every position with nonzero size and every finite
opposite-sign fill whose magnitude exceeds the current size with a
signed remainder of magnitude at least 1e-9, applying the fill leaves
`entry_price` equal to the flip fill's price and `size` equal to the
signed remainder, while `realized_pnl` is left unchanged (no PnL is
realized). -/
theorem update_position_flip (p : Position) (fq fp ts : ℚ)
    (hopp : (0 < p.quantity ∧ fq < 0) ∨ (p.quantity < 0 ∧ 0 < fq))
    (hmag : pyabs p.quantity < pyabs fq)
    (heps : eps9 ≤ pyabs (p.quantity + fq)) :
    (p.update_position (.finite fq) (.finite fp) ts).average_entry_price = fp ∧
    (p.update_position (.finite fq) (.finite fp) ts).quantity = p.quantity + fq ∧
    (p.update_position (.finite fq) (.finite fp) ts).realized_pnl = p.realized_pnl := by
  have h1 : ¬ pyabs (p.quantity + fq) < eps9 := not_lt.mpr heps
  have h2 : ¬ ((0 ≤ p.quantity ∧ 0 < fq) ∨ (p.quantity ≤ 0 ∧ fq < 0)) := by
    rcases hopp with ⟨hq, hf⟩ | ⟨hq, hf⟩
    · rintro (⟨-, hf'⟩ | ⟨hq', -⟩)
      · exact absurd hf' (not_lt.mpr hf.le)
      · exact absurd hq' (not_le.mpr hq)
    · rintro (⟨hq', -⟩ | ⟨-, hf'⟩)
      · exact absurd hq' (not_le.mpr hq)
      · exact absurd hf' (not_lt.mpr hf.le)
  have h3 : (0 < p.quantity ∧ p.quantity + fq < 0) ∨
      (p.quantity < 0 ∧ 0 < p.quantity + fq) := by
    rcases hopp with ⟨hq, hf⟩ | ⟨hq, hf⟩
    · left
      refine ⟨hq, ?_⟩
      rw [pyabs_eq_abs, abs_of_pos hq] at hmag
      rw [pyabs_eq_abs, abs_of_neg hf] at hmag
      linarith
    · right
      refine ⟨hq, ?_⟩
      rw [pyabs_eq_abs, abs_of_neg hq] at hmag
      rw [pyabs_eq_abs, abs_of_pos hf] at hmag
      linarith
  unfold Position.update_position
  simp [h1, h2, h3]

/-- Witness for `update_position_flip`: a long of size 1 at entry 100
hit by a fill of -2 at 110 flips to a short of size -1 with entry
price 110. -/
theorem update_position_flip_witness :
    ((0 : ℚ) < 1 ∧ (-2 : ℚ) < 0) ∧ pyabs (1 : ℚ) < pyabs (-2 : ℚ) ∧
    eps9 ≤ pyabs ((1 : ℚ) + (-2)) ∧
    (Position.update_position (Position.mk "BTC/USDT" 0 0 0 1 100 0 0 0 0)
      (.finite (-2)) (.finite 110) 7).average_entry_price = 110 :=
  ⟨⟨by norm_num, by norm_num⟩, by norm_num [pyabs], by norm_num [pyabs, eps9],
   (update_position_flip (Position.mk "BTC/USDT" 0 0 0 1 100 0 0 0 0) (-2) 110 7
     (Or.inl ⟨by norm_num, by norm_num⟩) (by norm_num [pyabs])
     (by norm_num [pyabs, eps9])).1⟩

/-- Counterexample to C4 as stated, in two parts.  First, the flip
fill of -2 at 110 against a long of 1 at entry 100 leaves
`realized_pnl` at 0 instead of realizing `(110 - 100) * 1 = 10` on the
old size.  Second, an opposite-sign fill of magnitude
`1 + 1/2000000000` (which exceeds the old size 1, leaving the signed
remainder `-1/2000000000`) is swallowed by the exact-close branch:
the result has `entry_price = 0` and `size = 0`, not the flip fill's
price 110 and the signed remainder. -/
theorem update_position_flip_counterexample :
    ((Position.update_position (Position.mk "BTC/USDT" 0 0 0 1 100 0 0 0 0)
        (.finite (-2)) (.finite 110) 7).realized_pnl = 0 ∧ (0 : ℚ) ≠ 0 + (110 - 100) * 1) ∧
    ((Position.update_position (Position.mk "BTC/USDT" 0 0 0 1 100 0 0 0 0)
        (.finite (-(1 + 1/2000000000))) (.finite 110) 7).average_entry_price = 0 ∧
      (0 : ℚ) ≠ 110 ∧
      (Position.update_position (Position.mk "BTC/USDT" 0 0 0 1 100 0 0 0 0)
        (.finite (-(1 + 1/2000000000))) (.finite 110) 7).quantity = 0 ∧
      (0 : ℚ) ≠ 1 + -(1 + 1/2000000000)) := by
  refine ⟨⟨?_, by norm_num⟩, ⟨?_, by norm_num, ?_, by norm_num⟩⟩
  · norm_num [Position.update_position, pyabs, eps9]
  · norm_num [Position.update_position, pyabs, eps9]
  · norm_num [Position.update_position, pyabs, eps9]

theorem stepOK_cons (s : ℚ) (f : Fill) (rest : List Fill) :
    stepOK s (f :: rest) = true ↔
      eps9 ≤ pyabs (s + f.1) ∧ stepOK (s + f.1) rest = true := by
  simp [stepOK]

theorem stepOK_total (l : List Fill) :
    ∀ a : ℚ, l ≠ [] → stepOK a l = true → eps9 ≤ pyabs (a + totalQty l) := by
  induction l with
  | nil => intro a h; exact absurd rfl h
  | cons f rest ih =>
    intro a _ hok
    obtain ⟨h1, h2⟩ := (stepOK_cons a f rest).mp hok
    by_cases hr : rest = []
    · subst hr
      simpa [totalQty] using h1
    · have := ih (a + f.1) hr h2
      have harr : a + totalQty (f :: rest) = a + f.1 + totalQty rest := by
        simp [totalQty]; ring
      rw [harr]
      exact this

theorem applyFills_cons (p : Position) (f : Fill) (rest : List Fill) :
    applyFills p (f :: rest) =
      applyFills (p.update_position (.finite f.1) (.finite f.2.1) f.2.2) rest := by
  simp [applyFills]

/-- One same-direction step of `update_position` lands in the
volume-weighted-average branch and maintains the accumulated quantity
and the quantity-weighted entry price. -/
theorem update_position_same_dir_step (p : Position) (s fq fp ts : ℚ)
    (hs : s = 1 ∨ s = -1) (hf : 0 < s * fq) (hq : 0 ≤ s * p.quantity)
    (heps : eps9 ≤ pyabs (p.quantity + fq)) :
    (p.update_position (.finite fq) (.finite fp) ts).quantity = p.quantity + fq ∧
    (p.update_position (.finite fq) (.finite fp) ts).quantity *
        (p.update_position (.finite fq) (.finite fp) ts).average_entry_price =
      p.quantity * p.average_entry_price + fq * fp := by
  have h1 : ¬ pyabs (p.quantity + fq) < eps9 := not_lt.mpr heps
  have hnz : p.quantity + fq ≠ 0 := pyabs_ne_zero _ heps
  have h2 : (0 ≤ p.quantity ∧ 0 < fq) ∨ (p.quantity ≤ 0 ∧ fq < 0) := by
    rcases hs with rfl | rfl
    · left
      constructor
      · simpa using hq
      · simpa using hf
    · right
      constructor
      · simpa using hq
      · simpa using hf
  constructor
  · unfold Position.update_position
    simp [h1, h2, hnz]
  · unfold Position.update_position
    simp [h1, h2, hnz]
    field_simp

/-- The volume-weighted-average invariant carried over a whole fill
sequence: the accumulated quantity and the quantity-weighted entry
price both advance by the fills' totals. -/
theorem applyFills_invariant (s : ℚ) (hs : s = 1 ∨ s = -1) :
    ∀ (fills : List Fill) (p : Position),
      (∀ f ∈ fills, 0 < s * f.1) → stepOK p.quantity fills = true →
      0 ≤ s * p.quantity →
      (applyFills p fills).quantity = p.quantity + totalQty fills ∧
      (applyFills p fills).quantity * (applyFills p fills).average_entry_price =
        p.quantity * p.average_entry_price + weightedQty fills := by
  intro fills
  induction fills with
  | nil =>
    intro p _ _ _
    simp [applyFills, totalQty, weightedQty]
  | cons f rest ih =>
    intro p hdir hok hsign
    obtain ⟨h1, h2⟩ := (stepOK_cons p.quantity f rest).mp hok
    have hstep := update_position_same_dir_step p s f.1 f.2.1 f.2.2 hs
      (hdir f (List.mem_cons_self f rest)) hsign h1
    set p1 := p.update_position (.finite f.1) (.finite f.2.1) f.2.2 with hp1
    have hq1 : p1.quantity = p.quantity + f.1 := hstep.1
    have hrest : stepOK p1.quantity rest = true := by rw [hq1]; exact h2
    have hsign1 : 0 ≤ s * p1.quantity := by
      rw [hq1, mul_add]
      have := (hdir f (List.mem_cons_self f rest)).le
      linarith
    have hir := ih p1 (fun g hg => hdir g (List.mem_cons_of_mem f hg)) hrest hsign1
    rw [applyFills_cons, ← hp1]
    constructor
    · rw [hir.1, hq1, totalQty]
      simp [totalQty]
      ring
    · rw [hir.2, hstep.2, weightedQty]
      simp [weightedQty]
      ring

/-- C3. The claim as universally stated fails for fills so small that
a step lands in the exact-close branch (see the counterexample).
Amended claim: for every non-empty sequence of same-direction finite
fills applied starting from a flat position, provided the accumulated
size after every fill keeps magnitude at least 1e-9, the resulting
size is the total signed quantity and the resulting `entry_price`
equals the volume-weighted average of the fill prices exactly (hence
within the claimed 1e-6 tolerance), each step computing
`entry_price = (old_size*old_entry + signed_quantity*price) / new_size`
and `size += signed_quantity`. -/
theorem applyFills_vwap (s : ℚ) (hs : s = 1 ∨ s = -1) (fills : List Fill)
    (hne : fills ≠ []) (hdir : ∀ f ∈ fills, 0 < s * f.1)
    (hok : stepOK 0 fills = true) (p : Position) (hflat : p.quantity = 0) :
    (applyFills p fills).quantity = totalQty fills ∧
    (applyFills p fills).average_entry_price = weightedQty fills / totalQty fills := by
  have hok' : stepOK p.quantity fills = true := by rw [hflat]; exact hok
  have hsign : 0 ≤ s * p.quantity := by rw [hflat]; simp
  obtain ⟨h1, h2⟩ := applyFills_invariant s hs fills p hdir hok' hsign
  rw [hflat] at h1 h2
  simp only [zero_add, zero_mul] at h1 h2
  have htot : totalQty fills ≠ 0 := by
    have := stepOK_total fills 0 hne hok
    rw [zero_add] at this
    exact pyabs_ne_zero _ this
  refine ⟨h1, ?_⟩
  have h2' : totalQty fills * (applyFills p fills).average_entry_price = weightedQty fills := by
    rw [← h1]
    exact h2
  field_simp
  linarith [h2']

/-- Witness for `applyFills_vwap`: the spec's own example, a flat
position filled with +0.1 @ 100 then +0.2 @ 110, ends at size 0.3 and
entry price 320/3 (≈ 106.67). -/
theorem applyFills_vwap_witness :
    ([((1 : ℚ)/10, (100 : ℚ), (1 : ℚ)), ((1 : ℚ)/5, (110 : ℚ), (2 : ℚ))] ≠
        ([] : List Fill)) ∧
    stepOK 0 [((1 : ℚ)/10, 100, 1), ((1 : ℚ)/5, 110, 2)] = true ∧
    (applyFills (Position.mk "BTC/USDT" 0 0 0 0 0 0 0 0 0)
        [((1 : ℚ)/10, 100, 1), ((1 : ℚ)/5, 110, 2)]).quantity = 3/10 ∧
    (applyFills (Position.mk "BTC/USDT" 0 0 0 0 0 0 0 0 0)
        [((1 : ℚ)/10, 100, 1), ((1 : ℚ)/5, 110, 2)]).average_entry_price = 320/3 := by
  have h := applyFills_vwap 1 (Or.inl rfl)
    [((1 : ℚ)/10, 100, 1), ((1 : ℚ)/5, 110, 2)] (by simp)
    (by
      intro f hf
      simp only [List.mem_cons, List.mem_singleton] at hf
      rcases hf with rfl | rfl | h
      · norm_num
      · norm_num
      · simp at h)
    (by norm_num [stepOK, pyabs, eps9])
    (Position.mk "BTC/USDT" 0 0 0 0 0 0 0 0 0) rfl
  refine ⟨by simp, by norm_num [stepOK, pyabs, eps9], ?_, ?_⟩
  · rw [h.1]; norm_num [totalQty]
  · rw [h.2]; norm_num [totalQty, weightedQty]

/-- Counterexample to C3 as stated: the one-fill same-direction
sequence `+5e-10 @ 100` from flat lands in the exact-close branch, so
the resulting entry price is 0 while the volume-weighted average of
fill prices is 100 — far outside the 1e-6 tolerance. -/
theorem applyFills_vwap_counterexample :
    (applyFills (Position.mk "BTC/USDT" 0 0 0 0 0 0 0 0 0)
        [((1 : ℚ)/2000000000, 100, 1)]).average_entry_price = 0 ∧
    weightedQty [((1 : ℚ)/2000000000, 100, 1)] /
        totalQty [((1 : ℚ)/2000000000, 100, 1)] = 100 ∧
    ¬ pyabs ((0 : ℚ) - 100) ≤ 1/1000000 := by
  refine ⟨?_, ?_, ?_⟩
  · norm_num [applyFills, Position.update_position, pyabs, eps9]
  · norm_num [totalQty, weightedQty]
  · norm_num [pyabs]

theorem update_portfolio_value_peak (rc : RiskController) (cfg : RiskSettings)
    (v : ℚ) :
    (rc.update_portfolio_value cfg (.finite v)).portfolio_peak_value =
      max rc.portfolio_peak_value v := by
  rcases lt_or_le rc.portfolio_peak_value v with h | h
  · rw [max_eq_right h.le]
    simp only [RiskController.update_portfolio_value, if_pos h]
    split_ifs <;> rfl
  · rw [max_eq_left h]
    simp only [RiskController.update_portfolio_value, if_neg (not_lt.mpr h)]
    split_ifs <;> rfl

theorem update_portfolio_value_halt (rc : RiskController) (cfg : RiskSettings)
    (v : ℚ) (hpos : 0 < max rc.portfolio_peak_value v) :
    ((rc.update_portfolio_value cfg (.finite v)).is_trading_halted = true ↔
      (cfg.max_drawdown_pct ≤
          (max rc.portfolio_peak_value v - v) / max rc.portfolio_peak_value v ∨
        (rc.is_trading_halted = true ∧
          ¬ (max rc.portfolio_peak_value v - v) / max rc.portfolio_peak_value v <
              cfg.max_drawdown_pct / 2))) := by
  rcases lt_or_le rc.portfolio_peak_value v with h | h
  · rw [max_eq_right h.le] at hpos ⊢
    simp only [RiskController.update_portfolio_value, if_pos h]
    split_ifs with h2 h3 <;> simp_all
  · rw [max_eq_left h] at hpos ⊢
    simp only [RiskController.update_portfolio_value, if_neg (not_lt.mpr h)]
    split_ifs with h2 h3 <;> simp_all
    constructor
    · intro hh
      exact Or.inr ⟨hh, h3 hh⟩
    · rintro (h1 | ⟨hh, -⟩)
      · exact absurd h1 (not_le.mpr h2)
      · exact hh

theorem observeAll_peak (cfg : RiskSettings) (vs : List ℚ) :
    ∀ rc : RiskController,
      (rc.observeAll cfg vs).portfolio_peak_value =
        vs.foldl max rc.portfolio_peak_value := by
  induction vs with
  | nil => intro rc; simp [RiskController.observeAll]
  | cons v rest ih =>
    intro rc
    have hstep : rc.observeAll cfg (v :: rest) =
        (rc.update_portfolio_value cfg (.finite v)).observeAll cfg rest := by
      simp [RiskController.observeAll]
    rw [hstep, ih, update_portfolio_value_peak]
    simp

theorem le_foldl_max (l : List ℚ) : ∀ b : ℚ, b ≤ l.foldl max b := by
  induction l with
  | nil => intro b; simp
  | cons x rest ih =>
    intro b
    exact le_trans (le_max_left b x) (ih (max b x))

theorem drawdown_nonneg (a v : ℚ) (hpos : 0 < max a v) :
    0 ≤ (max a v - v) / max a v := by
  apply div_nonneg _ hpos.le
  have := le_max_right a v
  linarith

/-- C6. For every sequence of finite portfolio-value observations, the
peak is the running maximum of the observed values (together with the
starting peak, 0 for a fresh controller) and never decreases; and for
every single observation `v` made from a state whose resulting peak is
positive, with drawdown `dd = (peak' - v) / peak'`: the halted flag is
never newly set while `dd` is strictly below `max_drawdown_pct`, is
always set once `dd` reaches or exceeds `max_drawdown_pct`, and — when
it was set — is cleared exactly when `dd` falls strictly below
`max_drawdown_pct / 2`. -/
theorem risk_gate_drawdown_hysteresis (cfg : RiskSettings) (rc : RiskController)
    (vs : List ℚ) (v : ℚ) (hpos : 0 < max rc.portfolio_peak_value v) :
    ((rc.observeAll cfg vs).portfolio_peak_value =
        vs.foldl max rc.portfolio_peak_value) ∧
    (rc.portfolio_peak_value ≤ (rc.observeAll cfg vs).portfolio_peak_value) ∧
    ((rc.is_trading_halted = false ∧
        (max rc.portfolio_peak_value v - v) / max rc.portfolio_peak_value v <
          cfg.max_drawdown_pct) →
      (rc.update_portfolio_value cfg (.finite v)).is_trading_halted = false) ∧
    (cfg.max_drawdown_pct ≤
        (max rc.portfolio_peak_value v - v) / max rc.portfolio_peak_value v →
      (rc.update_portfolio_value cfg (.finite v)).is_trading_halted = true) ∧
    (rc.is_trading_halted = true →
      ((rc.update_portfolio_value cfg (.finite v)).is_trading_halted = false ↔
        (max rc.portfolio_peak_value v - v) / max rc.portfolio_peak_value v <
          cfg.max_drawdown_pct / 2)) := by
  have hiff := update_portfolio_value_halt rc cfg v hpos
  have hdd := drawdown_nonneg rc.portfolio_peak_value v hpos
  refine ⟨observeAll_peak cfg vs rc, ?_, ?_, ?_, ?_⟩
  · rw [observeAll_peak cfg vs rc]
    exact le_foldl_max vs rc.portfolio_peak_value
  · rintro ⟨hhalt, hlt⟩
    rcases Bool.eq_false_or_eq_true
        (rc.update_portfolio_value cfg (.finite v)).is_trading_halted with h | h
    · exfalso
      rcases hiff.mp h with h1 | ⟨h2, -⟩
      · exact absurd h1 (not_le.mpr hlt)
      · rw [hhalt] at h2; exact Bool.false_ne_true h2
    · exact h
  · intro hge
    exact hiff.mpr (Or.inl hge)
  · intro hhalt
    constructor
    · intro hoff
      by_contra hnot
      have : (rc.update_portfolio_value cfg (.finite v)).is_trading_halted = true :=
        hiff.mpr (Or.inr ⟨hhalt, hnot⟩)
      rw [hoff] at this
      exact Bool.false_ne_true this
    · intro hlt
      rcases Bool.eq_false_or_eq_true
          (rc.update_portfolio_value cfg (.finite v)).is_trading_halted with h | h
      swap
      · exact h
      · exfalso
        rcases hiff.mp h with h1 | ⟨-, h2⟩
        · have hhalf : cfg.max_drawdown_pct / 2 ≤ cfg.max_drawdown_pct := by
            have h0 : 0 ≤ cfg.max_drawdown_pct := le_trans hdd (le_trans hlt.le (by linarith))
            linarith
          exact absurd h1 (not_le.mpr (lt_of_lt_of_le hlt hhalf))
        · exact h2 hlt

/-- Witness for `risk_gate_drawdown_hysteresis`: the spec's own
example with `max_drawdown_pct = 0.10`.  After a peak of 1000, the
observation 899 gives drawdown 0.101 and sets the halt flag. -/
theorem risk_gate_drawdown_hysteresis_witness :
    (0 : ℚ) < max 1000 899 ∧
    (1 : ℚ)/10 ≤ (max (1000 : ℚ) 899 - 899) / max (1000 : ℚ) 899 ∧
    ((RiskController.mk 1000 false).update_portfolio_value
        (RiskSettings.mk (1/10) (1/100)) (.finite 899)).is_trading_halted = true :=
  ⟨by norm_num, by norm_num,
   (risk_gate_drawdown_hysteresis (RiskSettings.mk (1/10) (1/100))
       (RiskController.mk 1000 false) [] 899 (by norm_num)).2.2.2.1
     (by norm_num)⟩

/-- A non-HOLD-capable signal literal: the given action and symbol,
finite price, quantity and stop-loss, and the given order type. -/
def mkSignal (action sym : String) (pr qty : ℚ) (ot : String) (slp : ℚ) : Signal :=
  { action := action, symbol := some sym, price := some (.finite pr),
    quantity := some (.finite qty), order_type := ot,
    stop_loss_price := some (.finite slp) }

/-- C7. The claim as stated promises a resize (never a rejection)
whenever `risk_per_unit > 0`; the code's guard is `risk_per_unit >
1e-9`, so a positive but sub-epsilon `risk_per_unit` is rejected (see
the counterexample).  Amended claim: for every BUY/SELL signal with
finite stop-loss, price and quantity, validated against a positive
finite portfolio value with the gate not halted and the
max-open-positions rule not applying, when `risk_pct = |price -
stop_loss| * |quantity| / portfolio_value` exceeds
`max_risk_per_trade_pct`: if `risk_per_unit = |price - stop_loss| >
1e-9` the gate shrinks the quantity to `portfolio_value *
max_risk_per_trade_pct / risk_per_unit` and returns the signal; if
`risk_per_unit ≤ 1e-9` it rejects the signal. -/
theorem validate_trade_risk_resize (cfg : AppConfig) (rc : RiskController)
    (positions : List (String × Position)) (action sym ot : String)
    (v slp pr qty : ℚ)
    (hact : action = "BUY" ∨ action = "SELL")
    (hv : 0 < v)
    (hhalt : (rc.update_portfolio_value cfg.risk (.finite v)).is_trading_halted = false)
    (hopen : max_open_reject cfg positions sym action = false)
    (hrisk : cfg.risk.max_risk_per_trade_pct < pyabs (pr - slp) * pyabs qty / v) :
    (eps9 < pyabs (pr - slp) →
      rc.validate_trade cfg positions (mkSignal action sym pr qty ot slp) (.finite v) =
        (rc.update_portfolio_value cfg.risk (.finite v),
         some { mkSignal action sym pr qty ot slp with
                quantity := some (.finite
                  (v * cfg.risk.max_risk_per_trade_pct / pyabs (pr - slp))) })) ∧
    (pyabs (pr - slp) ≤ eps9 →
      rc.validate_trade cfg positions (mkSignal action sym pr qty ot slp) (.finite v) =
        (rc.update_portfolio_value cfg.risk (.finite v), none)) := by
  constructor
  · intro heps
    rcases hact with rfl | rfl <;>
      simp [RiskController.validate_trade, mkSignal, FP.isnan, FP.isinf, FP.val,
        hhalt, hopen, not_le.mpr hv, hrisk, heps]
  · intro heps
    rcases hact with rfl | rfl <;>
      simp [RiskController.validate_trade, mkSignal, FP.isnan, FP.isinf, FP.val,
        hhalt, hopen, not_le.mpr hv, hrisk, not_lt.mpr heps]

/-- Witness for `validate_trade_risk_resize`: a fresh gate with a 1%
per-trade limit shrinks a BUY of 10 units risking 10% per unit down to
quantity `100 * (1/100) / 10 = 0.1` and keeps the signal. -/
theorem validate_trade_risk_resize_witness :
    (0 : ℚ) < 100 ∧ eps9 < pyabs ((100 : ℚ) - 90) ∧
    RiskController.validate_trade (RiskController.mk 0 false)
        (AppConfig.mk (RiskSettings.mk (1/10) (1/100)) 5) []
        (mkSignal "BUY" "BTC/USDT" 100 10 "MARKET" 90) (.finite 100) =
      ((RiskController.mk 0 false).update_portfolio_value
          (RiskSettings.mk (1/10) (1/100)) (.finite 100),
       some { mkSignal "BUY" "BTC/USDT" 100 10 "MARKET" 90 with
              quantity := some (.finite
                ((100 : ℚ) * ((1 : ℚ)/100) / pyabs ((100 : ℚ) - 90))) }) :=
  ⟨by norm_num, by norm_num [pyabs, eps9],
   (validate_trade_risk_resize (AppConfig.mk (RiskSettings.mk (1/10) (1/100)) 5)
       (RiskController.mk 0 false) [] "BUY" "BTC/USDT" "MARKET" 100 90 100 10
       (Or.inl rfl) (by norm_num)
       (by norm_num [RiskController.update_portfolio_value])
       (by simp [max_open_reject, get_position_size, getAssoc])
       (by norm_num [pyabs])).1
     (by norm_num [pyabs, eps9])⟩

/-- Counterexample to C7 as stated: with portfolio value 1, a 10%
per-trade limit, price 100 and stop-loss `100 - 5e-10`, the
risk-per-unit is `5e-10`, which is strictly positive, and the trade
risk (500) exceeds the limit — yet the gate rejects the signal
(returns `None`) instead of shrinking it, because `risk_per_unit` is
not above the code's 1e-9 guard. -/
theorem validate_trade_risk_resize_counterexample :
    (0 : ℚ) < pyabs ((100 : ℚ) - (100 - 1/2000000000)) ∧
    (RiskSettings.mk (1/10) (1/10)).max_risk_per_trade_pct <
      pyabs ((100 : ℚ) - (100 - 1/2000000000)) * pyabs (1000000000000 : ℚ) / 1 ∧
    (RiskController.validate_trade (RiskController.mk 0 false)
        (AppConfig.mk (RiskSettings.mk (1/10) (1/10)) 5) []
        (mkSignal "BUY" "BTC/USDT" 100 1000000000000 "MARKET" (100 - 1/2000000000))
        (.finite 1)).2 = none := by
  refine ⟨by norm_num [pyabs], by norm_num [pyabs], ?_⟩
  simp [RiskController.validate_trade, mkSignal, FP.isnan, FP.isinf, FP.val,
    RiskController.update_portfolio_value, max_open_reject, get_position_size,
    getAssoc, pyabs, eps9]
  norm_num

/-- C10. For every BUY/SELL signal with finite stop-loss, price and
quantity, validated while the gate is not halted and the
max-open-positions rule does not apply, a finite portfolio value that
is not positive makes the per-trade risk check short-circuit: the
signal is returned unchanged, with its original quantity, and is
neither shrunk nor rejected. -/
theorem validate_trade_nonpositive_portfolio (cfg : AppConfig) (rc : RiskController)
    (positions : List (String × Position)) (action sym ot : String)
    (v slp pr qty : ℚ)
    (hact : action = "BUY" ∨ action = "SELL")
    (hv : v ≤ 0)
    (hhalt : (rc.update_portfolio_value cfg.risk (.finite v)).is_trading_halted = false)
    (hopen : max_open_reject cfg positions sym action = false) :
    rc.validate_trade cfg positions (mkSignal action sym pr qty ot slp) (.finite v) =
      (rc.update_portfolio_value cfg.risk (.finite v),
       some (mkSignal action sym pr qty ot slp)) := by
  rcases hact with rfl | rfl <;>
    simp [RiskController.validate_trade, mkSignal, FP.isnan, FP.isinf,
      hhalt, hopen, hv]

/-- Witness for `validate_trade_nonpositive_portfolio`: a fresh gate
validating a BUY against portfolio value 0 returns the signal with its
quantity untouched. -/
theorem validate_trade_nonpositive_portfolio_witness :
    ((0 : ℚ) ≤ 0) ∧
    RiskController.validate_trade (RiskController.mk 0 false)
        (AppConfig.mk (RiskSettings.mk (1/10) (1/100)) 5) []
        (mkSignal "SELL" "BTC/USDT" 100 10 "LIMIT" 90) (.finite 0) =
      ((RiskController.mk 0 false).update_portfolio_value
          (RiskSettings.mk (1/10) (1/100)) (.finite 0),
       some (mkSignal "SELL" "BTC/USDT" 100 10 "LIMIT" 90)) :=
  ⟨le_refl 0,
   validate_trade_nonpositive_portfolio (AppConfig.mk (RiskSettings.mk (1/10) (1/100)) 5)
     (RiskController.mk 0 false) [] "SELL" "BTC/USDT" "LIMIT" 0 90 100 10
     (Or.inr rfl) (le_refl 0)
     (by norm_num [RiskController.update_portfolio_value])
     (by simp [max_open_reject, get_position_size, getAssoc])⟩

/-- A concrete market-data update: mid-price (100 + 101) / 2. -/
def mdSample : MarketData :=
  { timestamp := 1, bids := [(.finite 100, .finite 1)],
    asks := [(.finite 101, .finite 1)], last_trade := some (.finite 100) }

/-- C2.  The busy half of the claim holds: an update for a symbol
whose task is still running is recorded as the latest market data and
does not start a second cycle.  The idle half is broken in the code:
for a symbol with no running cycle, trader.py line 70 evaluates
`market_data.copy()`, but the handler's parameter is named `data` and
no `market_data` is in scope, so the handler raises `NameError` and no
cycle is ever started.  This theorem exhibits both behaviours: a fresh
manager raises `NameError` with its task map left empty, and a busy
manager records the update, keeps its task map unchanged, and returns
without error. -/
theorem handle_market_data_update_run :
    (handle_market_data_update (TradingManager.mk [] [] []) "BTC/USDT" mdSample =
      (TradingManager.mk [] [("BTC/USDT", mdSample)]
        [("BTC/USDT", .finite (201/2))], some .nameError)) ∧
    (handle_market_data_update (TradingManager.mk [("BTC/USDT", false)] [] [])
        "BTC/USDT" mdSample =
      (TradingManager.mk [("BTC/USDT", false)] [("BTC/USDT", mdSample)]
        [("BTC/USDT", .finite (201/2))], none)) := by
  constructor <;>
    norm_num [handle_market_data_update, updateLatestPrice, setAssoc, getAssoc,
      mdSample, FP.isnan]

/-- C8. For every run of `execute_signal` that returns normally: when
it hands back an order result with `status == 'closed'` and a positive
filled quantity, the position store is updated exactly once, with the
filled quantity signed by side (`buy` for a BUY action, `sell`
otherwise — positive for BUY, negative for SELL), the order's average
fill price, and the order's fill timestamp (milliseconds / 1000); when
the order is not confirmed filled (status not `closed`, or zero
filled), or no order was placed at all, no position update is made. -/
theorem execute_signal_fill_updates (init : Bool) (signal : Signal)
    (prices : List (String × ℚ)) (now : ℚ) (r : Option OrderResult)
    (calls : List FillCall)
    (h : execute_signal init signal prices now = .ok (r, calls)) :
    (∀ res : OrderResult, r = some res →
      ((res.status = "closed" ∧ 0 < res.filled) →
        calls = [⟨res.symbol,
                  if res.side = "buy" then res.filled else -res.filled,
                  res.average, (res.timestamp : ℚ) / 1000⟩]) ∧
      (¬ (res.status = "closed" ∧ 0 < res.filled) → calls = []) ∧
      (res.side = "buy" ↔ signal.action = "BUY")) ∧
    (r = none → calls = []) := by
  simp only [execute_signal] at h
  repeat' split at h
  all_goals try exact Except.noConfusion h
  all_goals injection h with h2
  all_goals injection h2 with hr hc
  all_goals subst hr
  all_goals subst hc
  all_goals try exact ⟨fun res hres => Option.noConfusion hres, fun _ => rfl⟩
  all_goals refine ⟨fun res hres => ?_, fun hnone => Option.noConfusion hnone⟩
  all_goals injection hres with hres2
  all_goals subst hres2
  all_goals
    refine ⟨fun hfill => ?_, fun hnot => ?_, by simp_all⟩ <;>
      simp only [fillCalls]
  all_goals
    first
    | rw [if_pos hfill]
    | rw [if_neg hnot]

/-- A concrete BUY market signal for one unit. -/
def sigSample : Signal :=
  { action := "BUY", symbol := some "BTC/USDT", price := none,
    quantity := some (.finite 1), order_type := "MARKET", stop_loss_price := none }

/-- The simulated order result of executing `sigSample` at market
price 100 and time 0. -/
def resSample : OrderResult :=
  { symbol := "BTC/USDT", type := "market", side := "buy", price := none,
    amount := 1, status := "closed", filled := 1, average := some 100,
    timestamp := 0 }

/-- Witness for `execute_signal_fill_updates`: a confirmed market BUY
fill of 1 unit at price 100 triggers exactly one position update with
quantity +1, price 100, and timestamp 0. -/
theorem execute_signal_fill_updates_witness :
    execute_signal true sigSample [("BTC/USDT", 100)] 0 =
      .ok (some resSample, [⟨"BTC/USDT", 1, some 100, 0⟩]) ∧
    resSample.status = "closed" ∧ (0 : ℚ) < resSample.filled ∧
    [(⟨"BTC/USDT", 1, some 100, 0⟩ : FillCall)] =
      [⟨resSample.symbol,
        if resSample.side = "buy" then resSample.filled else -resSample.filled,
        resSample.average, (resSample.timestamp : ℚ) / 1000⟩] := by
  have hl : pylower "MARKET" = "market" := by decide
  have hrun : execute_signal true sigSample [("BTC/USDT", 100)] 0 =
      .ok (some resSample, [⟨"BTC/USDT", 1, some 100, 0⟩]) := by
    norm_num [execute_signal, sigSample, resSample, fpLeZero, FP.isnan, FP.isinf,
      FP.val, hl, getAssoc, simulate_order, truncQ, fillCalls]
    simp
  refine ⟨hrun, rfl, by norm_num [resSample], ?_⟩
  exact ((execute_signal_fill_updates true sigSample [("BTC/USDT", 100)] 0
      (some resSample) [⟨"BTC/USDT", 1, some 100, 0⟩] hrun).1 resSample rfl).1
    ⟨rfl, by norm_num [resSample]⟩

theorem truncQ_le_self (x : ℚ) (h : 0 ≤ x) : (truncQ x : ℚ) ≤ x := by
  unfold truncQ
  rw [if_pos h]
  exact Int.floor_le x

theorem le_truncQ_self (x : ℚ) (h : x ≤ 0) : x ≤ (truncQ x : ℚ) := by
  unfold truncQ
  rcases eq_or_lt_of_le h with rfl | hlt
  · simp
  · rw [if_neg (not_le.mpr hlt)]
    push_cast
    have := Int.floor_le (-x)
    linarith

/-- C9. `format_quantity` returns `None` for NaN or infinite input,
returns the input unchanged when no amount-precision metadata is
available, and never rounds up: for positive finite input, any value
it returns is less than or equal to the input (both the
decimal-places quantization and the step-size floor truncate toward
zero). -/
theorem format_quantity_rounds_down (precision : Option PrecisionSpec)
    (x : FP) (q : ℚ) :
    (x.isnan = true ∨ x.isinf = true → format_quantity precision x = none) ∧
    (format_quantity none (.finite q) = some q) ∧
    (∀ r : ℚ, 0 < q → format_quantity precision (.finite q) = some r → r ≤ q) := by
  refine ⟨?_, rfl, ?_⟩
  · intro h
    cases x <;> simp_all [FP.isnan, FP.isinf, format_quantity]
  · intro r hq hr
    match precision with
    | none =>
      simp [format_quantity] at hr
      linarith [hr]
    | some (.dp n) =>
      by_cases hn : n < 0
      · simp [format_quantity, hn] at hr
      · simp [format_quantity, hn] at hr
        have hpow : (0 : ℚ) < 10 ^ n.toNat := by positivity
        have hle : (truncQ (q * 10 ^ n.toNat) : ℚ) ≤ q * 10 ^ n.toNat :=
          truncQ_le_self _ (by positivity)
        rw [← hr]
        rw [div_le_iff₀ hpow]
        linarith
    | some (.step s) =>
      by_cases hs : s = 0
      · simp [format_quantity, hs] at hr
        linarith [hr]
      · simp [format_quantity, hs] at hr
        rw [← hr]
        rcases lt_or_gt_of_ne hs with hneg | hpos
        · have hx : q / s ≤ 0 := div_nonpos_of_nonneg_of_nonpos hq.le hneg.le
          have := le_truncQ_self (q / s) hx
          calc (truncQ (q / s) : ℚ) * s ≤ (q / s) * s := by
                exact mul_le_mul_of_nonpos_right this hneg.le
            _ = q := by field_simp
        · have hx : 0 ≤ q / s := div_nonneg hq.le hpos.le
          have := truncQ_le_self (q / s) hx
          calc (truncQ (q / s) : ℚ) * s ≤ (q / s) * s := by
                exact mul_le_mul_of_nonneg_right this hpos.le
            _ = q := by field_simp
    | some .other =>
      simp [format_quantity] at hr
      linarith [hr]

/-- Witness for `format_quantity_rounds_down`: with a 2-decimal-place
amount precision, the quantity 0.7777 is rounded down to a value not
exceeding it (0.77 ≤ 0.7777), and a NaN input yields `None`. -/
theorem format_quantity_rounds_down_witness :
    ((FP.nan).isnan = true ∨ (FP.nan).isinf = true) ∧
    format_quantity (some (.dp 2)) .nan = none ∧
    (0 : ℚ) < 7777/10000 ∧
    format_quantity (some (.dp 2)) (.finite (7777/10000)) = some (77/100) ∧
    (77 : ℚ)/100 ≤ 7777/10000 := by
  have hfl : ⌊(7777 : ℚ)/100⌋ = 77 := Int.floor_eq_iff.mpr (by norm_num)
  have ht : (2 : ℤ).toNat = 2 := rfl
  have heval : format_quantity (some (.dp 2)) (.finite (7777/10000)) = some (77/100) := by
    simp only [format_quantity]
    rw [if_neg (by norm_num : ¬ (2 : ℤ) < 0)]
    rw [show ((7777 : ℚ)/10000 * 10 ^ (2 : ℤ).toNat) = 7777/100 by
      rw [ht]; norm_num]
    simp only [truncQ]
    rw [if_pos (by norm_num : (0 : ℚ) ≤ 7777/100), hfl]
    rw [ht]
    norm_num
  refine ⟨Or.inl rfl, ?_, by norm_num, heval, ?_⟩
  · exact ((format_quantity_rounds_down (some (.dp 2)) .nan 1).1 (Or.inl rfl))
  · exact (format_quantity_rounds_down (some (.dp 2)) (.finite (7777/10000))
      (7777/10000)).2.2 (77/100) (by norm_num) heval
